import Mathlib

/-!
Verification of the study-record storage and achievements layer of the
Kids-Coding-Thinking-Primer app (src/shared/storage/StudyStorage.ts,
src/shared/achievements/AchievementsData.ts, src/pages/Home.tsx).

Modelling conventions:
* JavaScript numbers are modelled as rationals (`ℚ`); `NaN`/`Infinity` and
  binary floating point are outside the model.
* A `localStorage` slot is modelled by `Blob`, the outcome of
  `localStorage.getItem` + `JSON.parse`: the item is absent, or the stored
  string is not valid JSON (`JSON.parse` throws), or it parses to a JSON
  value.  `JSON.stringify` of a JSON value round-trips to the same value.
* All code paths assume a browser environment (`typeof window` defined);
  the non-browser short-circuits of the source are not modelled.
-/

namespace KidsCoding

/-- JavaScript `Math.round`: nearest integer, ties toward positive infinity. -/
def jsRound (q : ℚ) : ℤ := ⌊q + 1/2⌋

/-- JavaScript `Number(x.toFixed(2))`: `x` rounded to two decimal places
(ties pick the larger candidate, i.e. toward positive infinity). -/
def toFixed2 (q : ℚ) : ℚ := (jsRound (q * 100) : ℚ) / 100

/-- A parsed JSON value. -/
inductive Json where
  | null : Json
  | bool (b : Bool) : Json
  | num (q : ℚ) : Json
  | str (s : String) : Json
  | arr (elems : List Json) : Json
  | obj (fields : List (String × Json)) : Json

/-- The content of one `localStorage` slot, as seen through `JSON.parse`. -/
inductive Blob where
  | absent : Blob
  | malformed : Blob
  | value (j : Json) : Blob

/-- The browser's persistent key-value store, restricted to the two slots the
app uses: the records slot (`kids-coding-study-records:v1`) and the
achievements slot (`kids-coding-achievements:v1`). -/
structure Store where
  records : Blob
  ach : Blob

/-- Property read `fields[k]` on a parsed JSON object.  `JSON.parse` keeps the
last occurrence of a duplicated key, hence `getLast?`. -/
def assocLookup {α : Type} (fields : List (String × α)) (k : String) : Option α :=
  ((fields.filter (fun p => decide (p.1 = k))).getLast?).map (fun p => p.2)

/-- Property write `fields[k] = v` on a JS object: overwrite an existing key in
place, otherwise append the new key at the end (JS property order). -/
def assocSet {α : Type} (fields : List (String × α)) (k : String) (v : α) :
    List (String × α) :=
  if fields.any (fun p => decide (p.1 = k)) then
    fields.map (fun p => if p.1 = k then (k, v) else p)
  else fields ++ [(k, v)]

/-- The element filter of `getRecords`: `typeof v?.timestamp === 'number'`.
Only an object with a numeric `timestamp` field passes. -/
def hasNumericTimestamp : Json → Bool
  | .obj fields =>
    match assocLookup fields ("timestamp") with
    | some (.num _) => true
    | _ => false
  | _ => false

/-- One completed play session (`StudyRecord` in StudyStorage.ts). -/
structure StudyRecord where
  module : String
  score : ℚ
  total : ℚ
  elapsedMs : ℚ
  timestamp : ℚ
  deriving DecidableEq

/-- The JSON serialization of a `StudyRecord`, as `JSON.stringify` produces it. -/
def StudyRecord.toJson (r : StudyRecord) : Json :=
  .obj [("module", .str r.module), ("score", .num r.score), ("total", .num r.total),
        ("elapsedMs", .num r.elapsedMs), ("timestamp", .num r.timestamp)]

/-- Read the records slot (`getRecords()`): on a missing item, a parse failure,
or a non-array value return `[]`; otherwise keep the elements that have a
numeric `timestamp`. -/
def getRecords (s : Store) : List Json :=
  match s.records with
  | .absent => []
  | .malformed => []
  | .value j =>
    match j with
    | .arr xs => xs.filter hasNumericTimestamp
    | _ => []

/-- Append a record (`addRecord(rec)`): read the current records, push `rec`, and write the
serialized array back.  `writeOk` models whether the `localStorage.setItem`
call succeeds; on failure the exception is swallowed and the store is
unchanged. -/
def addRecord (s : Store) (r : StudyRecord) (writeOk : Bool) : Store :=
  let arr := getRecords s ++ [r.toJson]
  if writeOk then { s with records := .value (.arr arr) } else s

/-- Remove the records item (`clearRecords()`); the achievements slot is not
touched. -/
def clearRecords (s : Store) : Store :=
  { s with records := .absent }

theorem filter_hasTs_getRecords (s : Store) :
    (getRecords s).filter hasNumericTimestamp = getRecords s := by
  unfold getRecords
  cases s.records with
  | absent => rfl
  | malformed => rfl
  | value j =>
    cases j with
    | arr xs => simp [List.filter_filter]
    | null => rfl
    | bool b => rfl
    | num q => rfl
    | str s => rfl
    | obj fields => rfl

theorem hasTs_toJson (r : StudyRecord) : hasNumericTimestamp r.toJson = true := rfl

theorem getRecords_addRecord (s : Store) (r : StudyRecord) :
    getRecords (addRecord s r true) = getRecords s ++ [r.toJson] := by
  show (getRecords s ++ [r.toJson]).filter hasNumericTimestamp = getRecords s ++ [r.toJson]
  rw [List.filter_append, filter_hasTs_getRecords]
  simp [hasTs_toJson]

/-- Claim C1: in a browser environment with a successful write, `addRecord r`
followed by `getRecords()` yields a sequence whose last element equals the
serialized `r` field for field, and whose length is one greater than what
`getRecords()` returned before the append. -/
theorem append_then_readAll (s : Store) (r : StudyRecord) :
    (getRecords (addRecord s r true)).getLast? = some r.toJson ∧
    (getRecords (addRecord s r true)).length = (getRecords s).length + 1 := by
  rw [getRecords_addRecord]
  constructor
  · simp
  · simp

/-- A record violating every documented data-model constraint:
`score > total`, `total = 0`, negative `elapsedMs`. -/
def badRecord : StudyRecord := ⟨"m", 5, 0, -2, 1⟩

/-- The empty store (both slots absent). -/
def emptyStore : Store := ⟨.absent, .absent⟩

/-- Claim C10: `addRecord` performs no validity check: every record with a
numeric timestamp is appended verbatim and read back by `getRecords`,
including records with `score > total`, `total = 0` or negative fields. -/
theorem addRecord_no_validation :
    (∀ (s : Store) (r : StudyRecord),
      getRecords (addRecord s r true) = getRecords s ++ [r.toJson]) ∧
    getRecords (addRecord emptyStore badRecord true) = [badRecord.toJson] := by
  refine ⟨fun s r => getRecords_addRecord s r, ?_⟩
  rw [getRecords_addRecord]
  rfl

/-- Claim C7: if the persisted records string is not valid JSON, or is valid
JSON but not an array, `getRecords()` returns `[]` (the exception of
`JSON.parse` is caught; the function is total). -/
theorem readAll_corrupt_safe (s : Store) :
    (s.records = .malformed → getRecords s = []) ∧
    (∀ j : Json, s.records = .value j → (∀ xs, j ≠ .arr xs) → getRecords s = []) := by
  constructor
  · intro h
    unfold getRecords
    rw [h]
  · intro j h hj
    unfold getRecords
    rw [h]
    cases j with
    | arr xs => exact absurd rfl (hj xs)
    | null => rfl
    | bool b => rfl
    | num q => rfl
    | str s => rfl
    | obj fields => rfl

theorem readAll_corrupt_safe_witness :
    getRecords ⟨.malformed, .absent⟩ = [] ∧ getRecords ⟨.value (.num 5), .absent⟩ = [] :=
  ⟨(readAll_corrupt_safe ⟨.malformed, .absent⟩).1 rfl,
   (readAll_corrupt_safe ⟨.value (.num 5), .absent⟩).2 (.num 5) rfl (fun xs h => by cases h)⟩

/-- A well-formed record used in concrete evaluations. -/
def goodRec : StudyRecord := ⟨"加减法练习", 8, 10, 600000, 1000⟩

/-- A store whose records slot holds an array mixing a well-formed record with
an element lacking a numeric timestamp. -/
def mixedStore : Store := ⟨.value (.arr [goodRec.toJson, .str ("junk")]), .absent⟩

/-- Claim C8 counterexample: the persisted array contains an element without a
numeric timestamp, yet `getRecords()` is NOT empty: it keeps the well-formed
element and only drops the bad one. -/
theorem readAll_mixed_not_empty :
    hasNumericTimestamp (.str ("junk")) = false ∧
    getRecords mixedStore = [goodRec.toJson] ∧
    getRecords mixedStore ≠ [] := by
  refine ⟨rfl, rfl, ?_⟩
  intro h
  exact List.cons_ne_nil _ _ ((rfl : getRecords mixedStore = [goodRec.toJson]).symm.trans h)

/-- Claim C8 (amended): when the records slot parses to an array, elements
lacking a numeric timestamp are filtered out and the remaining elements are
returned; the result is empty precisely when no element has a numeric
timestamp. -/
theorem readAll_filters_bad_elements (s : Store) (xs : List Json)
    (h : s.records = .value (.arr xs)) :
    getRecords s = xs.filter hasNumericTimestamp ∧
    (getRecords s = [] ↔ ∀ v ∈ xs, hasNumericTimestamp v = false) := by
  have h1 : getRecords s = xs.filter hasNumericTimestamp := by
    unfold getRecords
    rw [h]
  refine ⟨h1, ?_⟩
  rw [h1, List.filter_eq_nil_iff]
  constructor
  · intro hall v hv
    exact Bool.eq_false_iff.mpr (hall v hv)
  · intro hall v hv
    rw [hall v hv]
    exact Bool.false_ne_true

theorem readAll_filters_bad_elements_witness :
    getRecords mixedStore = [goodRec.toJson, .str ("junk")].filter hasNumericTimestamp :=
  (readAll_filters_bad_elements mixedStore [goodRec.toJson, .str ("junk")] rfl).1

/-- Claim C9: `clearRecords` empties the records slot only: afterwards
`getRecords()` is `[]`, a second clear changes nothing (idempotent, safe on an
already-empty store), and the persisted achievements slot is unchanged. -/
theorem clearRecords_frame (s : Store) :
    getRecords (clearRecords s) = [] ∧
    clearRecords (clearRecords s) = clearRecords s ∧
    (clearRecords s).ach = s.ach := by
  refine ⟨rfl, rfl, rfl⟩

/-! ## Weekly aggregation (`getWeeklySummaryFromStorage`)

`toDateKey` and `getLast7DayLabels` depend on `Date` and the local timezone;
they are modelled by a day-key function `dayKey : ℚ → String` and the list
`keys` of the 7 tracked day keys (oldest first), and `records` stands for the
well-formed records `getRecords()` yields. -/

structure DayAcc where
  minutes : ℚ
  correct : ℚ
  total : ℚ
  deriving DecidableEq

/-- One iteration of the record scan of `getWeeklySummaryFromStorage`,
restricted to the bucket of the tracked day key `k`: a record whose day key is
`k` adds `max(0, round(elapsedMs/60000))` minutes plus its score and total;
any other record leaves the bucket unchanged. -/
def bucketStep (dayKey : ℚ → String) (k : String) (acc : DayAcc) (r : StudyRecord) : DayAcc :=
  if dayKey r.timestamp == k then
    { minutes := acc.minutes + max 0 ((jsRound (r.elapsedMs / 60000) : ℚ)),
      correct := acc.correct + r.score,
      total := acc.total + r.total }
  else acc

/-- The bucket `byDay[k]` after the record scan: the source iterates the records once over
a dictionary keyed by day key; per tracked key this equals a fold over the
records mapping to that key. -/
def dayBucket (dayKey : ℚ → String) (records : List StudyRecord) (k : String) : DayAcc :=
  records.foldl (bucketStep dayKey k) ⟨0, 0, 0⟩

structure DayCell where
  day : String
  minutes : ℚ
  correctRate : ℚ
  deriving DecidableEq

/-- One element of the `weekly` array: the day (we keep the key rather than
the weekday label), the bucket minutes, and the bucket correct rate
`correct/total` (0 when `total = 0`) rounded by `Number(cr.toFixed(2))`. -/
def mkDayCell (dayKey : ℚ → String) (records : List StudyRecord) (k : String) : DayCell :=
  let v := dayBucket dayKey records k
  let cr := if 0 < v.total then v.correct / v.total else 0
  ⟨k, v.minutes, toFixed2 cr⟩

def weeklyOf (keys : List String) (dayKey : ℚ → String) (records : List StudyRecord) :
    List DayCell :=
  keys.map (mkDayCell dayKey records)

/-- The streak loop of `getWeeklySummaryFromStorage`, read over the reversed
`weekly` array: count while `minutes > 0`, break at the first other day. -/
def streakLoop : List DayCell → ℕ
  | [] => 0
  | d :: rest => if 0 < d.minutes then streakLoop rest + 1 else 0

structure WeeklySummary where
  weekly : List DayCell
  totalMinutes : ℚ
  avgCorrectRate : ℚ
  streakDays : ℕ
  correctMinutes : ℚ
  wrongMinutes : ℚ
  deriving DecidableEq

/-- The weekly summary `getWeeklySummaryFromStorage()`. -/
def getWeeklySummary (keys : List String) (dayKey : ℚ → String)
    (records : List StudyRecord) : WeeklySummary :=
  let weekly := weeklyOf keys dayKey records
  let totalMinutes := weekly.foldl (fun s d => s + d.minutes) 0
  let minuteSum := weekly.foldl (fun s d => s + d.minutes) 0
  let avgCorrectRate : ℚ :=
    if 0 < minuteSum then
      (jsRound (weekly.foldl (fun s d => s + d.correctRate * d.minutes) 0 / minuteSum * 100) : ℚ)
    else
      (jsRound (weekly.foldl (fun s d => s + d.correctRate) 0 /
        (if weekly.length = 0 then 1 else (weekly.length : ℚ)) * 100) : ℚ)
  let correctMinutes := weekly.foldl (fun s d => s + (jsRound (d.minutes * d.correctRate) : ℚ)) 0
  ⟨weekly, totalMinutes, avgCorrectRate, streakLoop weekly.reverse, correctMinutes,
    max 0 (totalMinutes - correctMinutes)⟩

theorem foldl_add_map_sum {α : Type} (f : α → ℚ) (l : List α) (a : ℚ) :
    l.foldl (fun s d => s + f d) a = a + (l.map f).sum := by
  induction l generalizing a with
  | nil => simp
  | cons x xs ih => simp [ih, add_assoc]

theorem sum_map_mul_comm (l : List DayCell) :
    (l.map (fun d => d.correctRate * d.minutes)).sum =
      (l.map (fun d => d.minutes * d.correctRate)).sum := by
  induction l with
  | nil => rfl
  | cons d t ih => simp [ih, mul_comm]

def keys7 : List String := ["k0", "k1", "k2", "k3", "k4", "k5", "k6"]

/-- A concrete day-key function placing rational timestamps 0..6 on the seven
tracked days. -/
def dayKey7 : ℚ → String := fun t =>
  if t == 0 then "k0" else if t == 1 then "k1" else if t == 2 then "k2"
  else if t == 3 then "k3" else if t == 4 then "k4" else if t == 5 then "k5"
  else if t == 6 then "k6" else "out"

/-- Day bucket A: 10 minutes at correct rate 0.5; day bucket B: 30 minutes at
correct rate 0.9; the other five days empty. -/
def recsC4 : List StudyRecord :=
  [⟨"m", 1, 2, 600000, 0⟩, ⟨"m", 9, 10, 1800000, 1⟩]

theorem weeklyC4_eval :
    weeklyOf keys7 dayKey7 recsC4 =
      [⟨"k0", 10, 1/2⟩, ⟨"k1", 30, 9/10⟩, ⟨"k2", 0, 0⟩, ⟨"k3", 0, 0⟩,
       ⟨"k4", 0, 0⟩, ⟨"k5", 0, 0⟩, ⟨"k6", 0, 0⟩] := by
  simp only [weeklyOf, mkDayCell, dayBucket, bucketStep, keys7, dayKey7, recsC4,
    toFixed2, jsRound, List.foldl, List.map]
  norm_num [Rat.floor_def]
  simp
  norm_num [Rat.floor_def]

/-- Claim C4: with 7 tracked days, each day cell carries the bucket rate
`correct/total` rounded to 2 decimals (0 when `total = 0`); when the minute
sum is positive, `avgCorrectRate` is the minutes-weighted average of those
rates times 100, rounded; when it is zero, the unweighted average over 7 is
used; and on buckets (10 min, 0.5) and (30 min, 0.9) the result is 80, not
the unweighted 70. -/
theorem avgCorrectRate_weighted :
    (∀ (keys : List String) (dayKey : ℚ → String) (records : List StudyRecord),
      keys.length = 7 →
      (∀ k ∈ keys, mkDayCell dayKey records k =
        ⟨k, (dayBucket dayKey records k).minutes,
          toFixed2 (if 0 < (dayBucket dayKey records k).total then
            (dayBucket dayKey records k).correct / (dayBucket dayKey records k).total
          else 0)⟩) ∧
      (0 < ((weeklyOf keys dayKey records).map DayCell.minutes).sum →
        (getWeeklySummary keys dayKey records).avgCorrectRate =
          (jsRound
            (((weeklyOf keys dayKey records).map (fun d => d.minutes * d.correctRate)).sum /
              ((weeklyOf keys dayKey records).map DayCell.minutes).sum * 100) : ℚ)) ∧
      (((weeklyOf keys dayKey records).map DayCell.minutes).sum = 0 →
        (getWeeklySummary keys dayKey records).avgCorrectRate =
          (jsRound (((weeklyOf keys dayKey records).map DayCell.correctRate).sum / 7 * 100) : ℚ))) ∧
    (getWeeklySummary keys7 dayKey7 recsC4).avgCorrectRate = 80 := by
  constructor
  · intro keys dayKey records hlen
    refine ⟨fun k _ => rfl, ?_, ?_⟩
    · intro hpos
      show (if 0 < (weeklyOf keys dayKey records).foldl (fun s d => s + d.minutes) 0 then
          (jsRound ((weeklyOf keys dayKey records).foldl (fun s d => s + d.correctRate * d.minutes) 0 /
            (weeklyOf keys dayKey records).foldl (fun s d => s + d.minutes) 0 * 100) : ℚ)
        else _) = _
      rw [foldl_add_map_sum DayCell.minutes,
        foldl_add_map_sum (fun d : DayCell => d.correctRate * d.minutes),
        zero_add, zero_add, if_pos hpos, sum_map_mul_comm]
    · intro hzero
      show (if 0 < (weeklyOf keys dayKey records).foldl (fun s d => s + d.minutes) 0 then _
        else (jsRound ((weeklyOf keys dayKey records).foldl (fun s d => s + d.correctRate) 0 /
          (if (weeklyOf keys dayKey records).length = 0 then 1
            else ((weeklyOf keys dayKey records).length : ℚ)) * 100) : ℚ)) = _
      rw [foldl_add_map_sum DayCell.minutes, foldl_add_map_sum DayCell.correctRate,
        zero_add, zero_add, hzero, if_neg (lt_irrefl (0 : ℚ))]
      have h7 : (weeklyOf keys dayKey records).length = 7 := by
        rw [weeklyOf, List.length_map, hlen]
      rw [h7]
      norm_num
  · simp only [getWeeklySummary, weeklyC4_eval]
    norm_num [jsRound, Rat.floor_def]

theorem avgCorrectRate_weighted_witness :
    (getWeeklySummary keys7 dayKey7 recsC4).avgCorrectRate =
      (jsRound (((weeklyOf keys7 dayKey7 recsC4).map (fun d => d.minutes * d.correctRate)).sum /
        ((weeklyOf keys7 dayKey7 recsC4).map DayCell.minutes).sum * 100) : ℚ) :=
  (avgCorrectRate_weighted.1 keys7 dayKey7 recsC4 (by decide)).2.1
    (by rw [weeklyC4_eval]; norm_num)

/-- Spec-side reading of the streak rule: the length of the maximal suffix of
the per-day minutes in which every entry is positive (count backward from
today, stop at the first non-positive day). -/
def posSuffixLen (ms : List ℚ) : ℕ :=
  (ms.reverse.takeWhile (fun m => decide (0 < m))).length

theorem streakLoop_takeWhile (l : List DayCell) :
    streakLoop l = ((l.map DayCell.minutes).takeWhile (fun m => decide (0 < m))).length := by
  induction l with
  | nil => rfl
  | cons d t ih =>
    by_cases h : 0 < d.minutes
    · simp [streakLoop, List.takeWhile_cons, h, ih]
    · simp [streakLoop, List.takeWhile_cons, h]

/-- Records realizing day-bucket minutes [5,0,3,4,0,6,7] (oldest to newest)
over the keys `keys7`. -/
def recsC5 : List StudyRecord :=
  [⟨"m", 1, 1, 300000, 0⟩, ⟨"m", 1, 1, 180000, 2⟩, ⟨"m", 1, 1, 240000, 3⟩,
   ⟨"m", 1, 1, 360000, 5⟩, ⟨"m", 1, 1, 420000, 6⟩]

theorem weeklyC5_eval :
    weeklyOf keys7 dayKey7 recsC5 =
      [⟨"k0", 5, 1⟩, ⟨"k1", 0, 0⟩, ⟨"k2", 3, 1⟩, ⟨"k3", 4, 1⟩,
       ⟨"k4", 0, 0⟩, ⟨"k5", 6, 1⟩, ⟨"k6", 7, 1⟩] := by
  simp only [weeklyOf, mkDayCell, dayBucket, bucketStep, keys7, dayKey7, recsC5,
    toFixed2, jsRound, List.foldl, List.map]
  norm_num [Rat.floor_def]
  simp
  norm_num [Rat.floor_def]

/-- Claim C5: `streakDays` is the number of consecutive positive-minute day
buckets counted backward from today, stopping at the first zero-minute day;
on bucket minutes [5,0,3,4,0,6,7] it is 2, and it is 0 whenever today's
bucket (the last one) has zero minutes. -/
theorem streakDays_spec :
    (∀ (keys : List String) (dayKey : ℚ → String) (records : List StudyRecord),
      (getWeeklySummary keys dayKey records).streakDays =
        posSuffixLen ((weeklyOf keys dayKey records).map DayCell.minutes)) ∧
    (∀ (keys : List String) (dayKey : ℚ → String) (records : List StudyRecord) (d : DayCell),
      (weeklyOf keys dayKey records).getLast? = some d → d.minutes = 0 →
      (getWeeklySummary keys dayKey records).streakDays = 0) ∧
    (getWeeklySummary keys7 dayKey7 recsC5).streakDays = 2 := by
  have key : ∀ (keys : List String) (dayKey : ℚ → String) (records : List StudyRecord),
      (getWeeklySummary keys dayKey records).streakDays =
        posSuffixLen ((weeklyOf keys dayKey records).map DayCell.minutes) := by
    intro keys dayKey records
    show streakLoop (weeklyOf keys dayKey records).reverse = _
    rw [streakLoop_takeWhile, posSuffixLen, List.map_reverse]
  refine ⟨key, ?_, ?_⟩
  case refine_2 =>
    show streakLoop (weeklyOf keys7 dayKey7 recsC5).reverse = 2
    rw [weeklyC5_eval]
    norm_num [streakLoop, List.reverse]
  intro keys dayKey records d hlast hzero
  rw [key, posSuffixLen, ← List.map_reverse]
  cases hrev : (weeklyOf keys dayKey records).reverse with
  | nil => rfl
  | cons a t =>
    have : a = d := by
      have h1 := List.head?_reverse (weeklyOf keys dayKey records)
      rw [hrev] at h1
      simp only [List.head?] at h1
      rw [hlast] at h1
      exact Option.some.inj h1
    rw [this]
    simp [List.takeWhile_cons, hzero]

theorem streakDays_spec_witness :
    (getWeeklySummary ["a"] dayKey7 []).streakDays = 0 :=
  streakDays_spec.2.1 ["a"] dayKey7 [] ⟨"a", 0, 0⟩
    (by norm_num [weeklyOf, mkDayCell, dayBucket, toFixed2, jsRound, Rat.floor_def]) rfl

/-! ## Today view (Home.tsx) -/

/-- Keep the records of `getRecordsWithinDays(days)`, those with timestamp in
`[now - (days-1)*86400000, now]`; `now` stands for `Date.now()`. -/
def recordsWithinDays (now days : ℚ) (records : List StudyRecord) : List StudyRecord :=
  records.filter (fun r =>
    decide (now - (days - 1) * (24 * 60 * 60 * 1000) ≤ r.timestamp) && decide (r.timestamp ≤ now))

/-- The `recordsToday` filter of `todayStats`/`todayBreakdown` in Home.tsx:
records within 1 day whose day key equals today's key. -/
def todayRecords (now : ℚ) (dayKey : ℚ → String) (records : List StudyRecord) :
    List StudyRecord :=
  (recordsWithinDays now 1 records).filter (fun r => dayKey r.timestamp == dayKey now)

/-- Home.tsx `todayStats.minutes`: each today-record contributes
`max(1, round(elapsedMs/60000))` minutes. -/
def todayMinutes (now : ℚ) (dayKey : ℚ → String) (records : List StudyRecord) : ℚ :=
  (todayRecords now dayKey records).foldl
    (fun s r => s + max 1 ((jsRound (r.elapsedMs / 60000) : ℚ))) 0

/-- Day-key function for the C6 scenario: every non-negative timestamp falls on
the day "today". -/
def dayKeyC6 : ℚ → String := fun t => if t < 0 then "other" else "today"

/-- A 10-second session recorded today, one second before the view is
computed at time 1000000. -/
def recC6 : StudyRecord := ⟨"m", 1, 1, 10000, 999000⟩

/-- Claim C6, evaluated at the failing input: the weekly bucket of a
10-second record gains `max(0, round(elapsedMs/60000)) = 0` minutes, and the
today-path per-record contribution would be `max(1, ...) = 1`; but although
the record lies on today's tracked day, the `days = 1` window of
`getRecordsWithinDays` degenerates to `[now, now]`, so the record is excluded
from the today view and `todayStats.minutes` is 0 rather than the claimed 1
(contradicting the source's own doc comment, records "within the last N days
(inclusive of today)"). -/
theorem today_view_misses_earlier_record :
    (dayBucket dayKeyC6 [recC6] ("today")).minutes = 0 ∧
    max 1 ((jsRound (recC6.elapsedMs / 60000) : ℚ)) = 1 ∧
    dayKeyC6 recC6.timestamp = dayKeyC6 1000000 ∧
    todayRecords 1000000 dayKeyC6 [recC6] = [] ∧
    todayMinutes 1000000 dayKeyC6 [recC6] = 0 := by
  refine ⟨?_, ?_, rfl, ?_, ?_⟩
  · norm_num [dayBucket, bucketStep, dayKeyC6, recC6, jsRound, Rat.floor_def]
  · norm_num [recC6, jsRound, Rat.floor_def]
  · norm_num [todayRecords, recordsWithinDays, recC6, dayKeyC6]
  · norm_num [todayMinutes, todayRecords, recordsWithinDays, recC6, dayKeyC6]

/-! ## Achievements (AchievementsData.ts) -/

/-- JS `x || 0` for `x` a number or `undefined` (`0` and `undefined` are
falsy). -/
def orZero : Option ℚ → ℚ
  | some c => if c = 0 then 0 else c
  | none => 0

/-- JS falsiness of `unlockedMap[id]`, a parsed JSON value or `undefined`
(`undefined`, `null`, `false`, `0` and `""` are falsy; `NaN` is outside the
rational model). -/
def falsyProp : Option Json → Bool
  | none => true
  | some .null => true
  | some (.bool b) => !b
  | some (.num q) => decide (q = 0)
  | some (.str s) => s == ""
  | some (.arr _) => false
  | some (.obj _) => false

/-- The key collapse `JSON.parse` performs on an object with duplicated keys:
first occurrence keeps its position, the last value wins. -/
def dedupFields (fields : List (String × Json)) : List (String × Json) :=
  fields.foldl (fun acc p => assocSet acc p.1 p.2) []

/-- Defensive parse of the achievements slot (`getUnlockedMap()`).  The guard is
`parsed && typeof parsed === 'object'`; `typeof` also classifies arrays as
objects, but a JSON array carries no non-numeric string key, so for every
badge id it behaves as the empty map and is modelled as such. -/
def getUnlockedMap (s : Store) : List (String × Json) :=
  match s.ach with
  | .absent => []
  | .malformed => []
  | .value j =>
    match j with
    | .obj fields => dedupFields fields
    | _ => []

/-- Compact statistics derived from records (`Stats` in AchievementsData.ts). -/
structure Stats where
  sessions : ℚ
  totalAnswered : ℚ
  totalCorrect : ℚ
  bestAccuracy : ℚ
  streakDays : ℚ
  minutes : ℚ
  moduleCounts : List (String × ℚ)
  deriving DecidableEq

/-- The mutable locals of the `computeStats` loop. -/
structure StatsAcc where
  totalAnswered : ℚ
  totalCorrect : ℚ
  bestAccuracy : ℚ
  minutes : ℚ
  moduleCounts : List (String × ℚ)
  deriving DecidableEq

/-- The update `moduleCounts[r.module] = (moduleCounts[r.module] || 0) + 1`. -/
def countsBump (g : List (String × ℚ)) (m : String) : List (String × ℚ) :=
  assocSet g m (orZero (assocLookup g m) + 1)

/-- One iteration of the `computeStats` loop. -/
def statsStep (acc : StatsAcc) (r : StudyRecord) : StatsAcc :=
  { totalAnswered := acc.totalAnswered + r.total,
    totalCorrect := acc.totalCorrect + r.score,
    bestAccuracy :=
      if acc.bestAccuracy < (if 0 < r.total then r.score / r.total else 0) then
        (if 0 < r.total then r.score / r.total else 0)
      else acc.bestAccuracy,
    minutes := acc.minutes + max 0 ((jsRound (r.elapsedMs / 60000) : ℚ)),
    moduleCounts := countsBump acc.moduleCounts r.module }

/-- Aggregate statistics (`computeStats(records)`).  The source reads `streakDays` from
`getWeeklySummaryFromStorage()`; it is a parameter here, as are the typed
records (`getRecords()` returns untyped JSON). -/
def computeStats (records : List StudyRecord) (streakDays : ℚ) : Stats :=
  let a := records.foldl statsStep ⟨0, 0, 0, 0, []⟩
  ⟨(records.length : ℚ), a.totalAnswered, a.totalCorrect, a.bestAccuracy,
    streakDays, a.minutes, a.moduleCounts⟩

/-- A badge definition: id, optional progress goal, and the pure predicate on
`Stats` returning the unlocked flag and the progress ratio (every badge of the
fixed rule set supplies a progress value). -/
structure BadgeDef where
  id : String
  goal : Option ℚ
  check : Stats → Bool × ℚ

def badgeStarter : BadgeDef :=
  ⟨"starter-1", some 1, fun s => (decide (1 ≤ s.sessions), min 1 (s.sessions / 1))⟩

def badgeTen : BadgeDef :=
  ⟨"ten-sessions", some 10, fun s => (decide (10 ≤ s.sessions), min 1 (s.sessions / 10))⟩

def badgeHundred : BadgeDef :=
  ⟨"hundred-answers", some 100,
    fun s => (decide (100 ≤ s.totalAnswered), min 1 (s.totalAnswered / 100))⟩

def badgeAccuracy : BadgeDef :=
  ⟨"accuracy-90", none, fun s => (decide ((9/10 : ℚ) ≤ s.bestAccuracy), s.bestAccuracy)⟩

def badgeStreak : BadgeDef :=
  ⟨"streak-3", some 3, fun s => (decide (3 ≤ s.streakDays), min 1 (s.streakDays / 3))⟩

def badgeMath : BadgeDef :=
  ⟨"math-3", some 3, fun s =>
    (decide (3 ≤ orZero (assocLookup s.moduleCounts ("加减法练习"))),
     min 1 (orZero (assocLookup s.moduleCounts ("加减法练习")) / 3))⟩

/-- The fixed badge rule set, in source order. -/
def BADGES : List BadgeDef :=
  [badgeStarter, badgeTen, badgeHundred, badgeAccuracy, badgeStreak, badgeMath]

/-- A badge annotated with its runtime status, as returned by
`getAchievementsState` (`unlockedAt` keeps the raw persisted JSON value, or
the freshly written timestamp). -/
structure BadgeStatus where
  id : String
  unlocked : Bool
  progress : ℚ
  unlockedAt : Option Json

/-- One iteration of the `BADGES.map` loop of `getAchievementsState`: compute
the predicate, and when it is unlocked and the stored entry is falsy
(`!unlockedAt`), stamp `Date.now()` into the map; the reported `unlocked`
flag is always the predicate's own result. -/
def evalStep (stats : Stats) (now : ℚ)
    (acc : List BadgeStatus × List (String × Json)) (b : BadgeDef) :
    List BadgeStatus × List (String × Json) :=
  if (b.check stats).1 && falsyProp (assocLookup acc.2 b.id) then
    (acc.1 ++ [⟨b.id, (b.check stats).1, (b.check stats).2, some (.num now)⟩],
      assocSet acc.2 b.id (.num now))
  else
    (acc.1 ++ [⟨b.id, (b.check stats).1, (b.check stats).2, assocLookup acc.2 b.id⟩],
      acc.2)

/-- The result record of `getAchievementsState`. -/
structure AchState where
  stats : Stats
  badges : List BadgeStatus
  unlockedMap : List (String × Json)
  level : ℚ
  points : ℚ

/-- Evaluate achievements (`getAchievementsState()`): compute stats, evaluate every badge while
stamping first unlocks into the map, persist the map unconditionally
(`setUnlockedMap`), and derive points/level.  Returns the result together with
the store after the write. -/
def getAchievementsState (records : List StudyRecord) (streakDays now : ℚ)
    (s : Store) : AchState × Store :=
  let stats := computeStats records streakDays
  let r := BADGES.foldl (evalStep stats now) ([], getUnlockedMap s)
  let points := stats.totalCorrect
  let level := max 1 ((⌊points / 50⌋ : ℚ) + 1)
  (⟨stats, r.1, r.2, level, points⟩, { s with ach := .value (.obj r.2) })

theorem filter_key_map_set {α : Type} (m : List (String × α)) (k id : String) (v : α)
    (h : k ≠ id) :
    ((m.map (fun p => if p.1 = k then (k, v) else p)).filter (fun p => decide (p.1 = id))) =
      m.filter (fun p => decide (p.1 = id)) := by
  induction m with
  | nil => rfl
  | cons p t ih =>
    by_cases hp : p.1 = k
    · have h2 : ¬ p.1 = id := fun hh => h (hp.symm.trans hh)
      simp [List.filter_cons, hp, h, h2, ih]
    · simp [List.filter_cons, hp, ih]

theorem assocLookup_assocSet_ne {α : Type} (m : List (String × α)) (k id : String) (v : α)
    (h : k ≠ id) : assocLookup (assocSet m k v) id = assocLookup m id := by
  unfold assocSet assocLookup
  by_cases hm : m.any (fun p => decide (p.1 = k))
  · rw [if_pos hm, filter_key_map_set m k id v h]
  · rw [if_neg hm, List.filter_append]
    have he : (([(k, v)] : List (String × α)).filter (fun p => decide (p.1 = id))) = [] := by
      simp [h]
    rw [he, List.append_nil]

theorem evalStep_preserves (stats : Stats) (now : ℚ) (id : String) (t : ℚ) (ht : t ≠ 0)
    (acc : List BadgeStatus × List (String × Json)) (b : BadgeDef)
    (h : assocLookup acc.2 id = some (.num t)) :
    assocLookup (evalStep stats now acc b).2 id = some (.num t) := by
  unfold evalStep
  by_cases hc : ((b.check stats).1 && falsyProp (assocLookup acc.2 b.id)) = true
  · rw [if_pos hc]
    by_cases hid : b.id = id
    · exfalso
      rw [hid, h] at hc
      simp [falsyProp, ht] at hc
    · exact (assocLookup_assocSet_ne acc.2 b.id id (Json.num now) hid).trans h
  · rw [if_neg hc]
    exact h

theorem evalFold_preserves (stats : Stats) (now : ℚ) (id : String) (t : ℚ) (ht : t ≠ 0) :
    ∀ (bs : List BadgeDef) (acc : List BadgeStatus × List (String × Json)),
      assocLookup acc.2 id = some (.num t) →
      assocLookup (bs.foldl (evalStep stats now) acc).2 id = some (.num t)
  | [], _, h => h
  | b :: rest, acc, h => by
    rw [List.foldl_cons]
    exact evalFold_preserves stats now id t ht rest _
      (evalStep_preserves stats now id t ht acc b h)

theorem evalFold_mem_acc (stats : Stats) (now : ℚ) :
    ∀ (bs : List BadgeDef) (acc : List BadgeStatus × List (String × Json)) (x : BadgeStatus),
      x ∈ acc.1 → x ∈ (bs.foldl (evalStep stats now) acc).1
  | [], _, _, hx => hx
  | b :: rest, acc, x, hx => by
    rw [List.foldl_cons]
    apply evalFold_mem_acc stats now rest _ x
    unfold evalStep
    by_cases hc : ((b.check stats).1 && falsyProp (assocLookup acc.2 b.id)) = true
    · rw [if_pos hc]
      exact List.mem_append_left _ hx
    · rw [if_neg hc]
      exact List.mem_append_left _ hx

theorem evalFold_status_mem (stats : Stats) (now : ℚ) (id : String) (t : ℚ) (ht : t ≠ 0) :
    ∀ (bs : List BadgeDef) (acc : List BadgeStatus × List (String × Json)),
      assocLookup acc.2 id = some (.num t) →
      ∀ b ∈ bs, b.id = id →
      (⟨id, (b.check stats).1, (b.check stats).2, some (.num t)⟩ : BadgeStatus) ∈
        (bs.foldl (evalStep stats now) acc).1
  | [], _, _, b, hb, _ => absurd hb (List.not_mem_nil b)
  | b' :: rest, acc, h, b, hb, hbid => by
    rw [List.foldl_cons]
    rcases List.mem_cons.mp hb with heq | hmem
    · subst heq
      apply evalFold_mem_acc stats now rest _ _
      have hfalse : falsyProp (assocLookup acc.2 b.id) = false := by
        rw [hbid, h]
        simp [falsyProp, ht]
      unfold evalStep
      rw [hfalse, Bool.and_false, if_neg Bool.false_ne_true]
      refine List.mem_append_right _ ?_
      rw [hbid, h]
      exact List.mem_singleton.mpr rfl
    · exact evalFold_status_mem stats now id t ht rest _
        (evalStep_preserves stats now id t ht acc b' h) b hmem hbid

/-- A store whose achievements slot binds badge "starter-1" to timestamp 0
(a falsy number in JS). -/
def achZeroStore : Store := ⟨.absent, .value (.obj [("starter-1", .num 0)])⟩

/-- A single one-minute session, enough to satisfy the starter badge. -/
def oneRec : StudyRecord := ⟨"m", 1, 1, 60000, 5⟩

/-- Claim C2 counterexample: the persisted unlock map binds "starter-1" to
timestamp 0; since `0` is falsy, `getAchievementsState` (called at time 111
with stats satisfying the starter predicate) overwrites the entry with 111,
so the persisted entry is NOT left unaltered. -/
theorem unlock_entry_zero_overwritten :
    assocLookup (getUnlockedMap achZeroStore) ("starter-1") = some (.num 0) ∧
    assocLookup ((getAchievementsState [oneRec] 0 111 achZeroStore).1.unlockedMap)
      "starter-1" = some (.num 111) := by
  constructor
  · rfl
  · simp only [getAchievementsState, computeStats, statsStep, countsBump, orZero,
      getUnlockedMap, dedupFields, achZeroStore, oneRec, BADGES, badgeStarter, badgeTen,
      badgeHundred, badgeAccuracy, badgeStreak, badgeMath, evalStep, falsyProp,
      assocLookup, assocSet, jsRound, List.foldl, List.map, List.filter, List.any]
    norm_num [Rat.floor_def]
    simp [assocLookup, assocSet]
    norm_num
    exact ⟨"starter-1", Or.inr ⟨by decide, rfl⟩⟩

/-- Claim C2 (amended): for every id whose entry in the persisted unlock map
is a nonzero timestamp, `getAchievementsState` leaves the entry unaltered and
never removes it: the map it persists back still binds the id to the same
timestamp (a stored timestamp of exactly 0 is falsy in JS, is treated like a
missing entry, and can be overwritten with the current time). -/
theorem unlock_map_nonzero_sticky (records : List StudyRecord) (streakDays now : ℚ)
    (s : Store) (id : String) (t : ℚ) (ht : t ≠ 0)
    (h : assocLookup (getUnlockedMap s) id = some (.num t)) :
    assocLookup ((getAchievementsState records streakDays now s).1.unlockedMap) id =
      some (.num t) ∧
    ((getAchievementsState records streakDays now s).2).ach =
      .value (.obj ((getAchievementsState records streakDays now s).1.unlockedMap)) := by
  constructor
  · exact evalFold_preserves (computeStats records streakDays) now id t ht BADGES
      ⟨[], getUnlockedMap s⟩ h
  · rfl

/-- A store whose achievements slot binds badge "ten-sessions" to the nonzero
timestamp 77. -/
def achTenStore : Store := ⟨.absent, .value (.obj [("ten-sessions", .num 77)])⟩

theorem unlock_map_nonzero_sticky_witness :
    assocLookup ((getAchievementsState [] 0 5 achTenStore).1.unlockedMap)
      "ten-sessions" = some (.num 77) :=
  (unlock_map_nonzero_sticky [] 0 5 achTenStore "ten-sessions" 77 (by norm_num) rfl).1

/-- Claim C3 counterexample: the persisted map binds "ten-sessions" to
timestamp 77, but the current stats (no records, 0 sessions) fail the
predicate, and `getAchievementsState` reports every badge — including
"ten-sessions" — with `unlocked = false`: the reported flag is the current
predicate result, not the sticky map. -/
theorem unlocked_flag_not_sticky :
    assocLookup (getUnlockedMap achTenStore) ("ten-sessions") = some (.num 77) ∧
    ((getAchievementsState [] 0 999 achTenStore).1.badges.map
      (fun st => (st.id, st.unlocked))) =
      [("starter-1", false), ("ten-sessions", false), ("hundred-answers", false),
       ("accuracy-90", false), ("streak-3", false), ("math-3", false)] := by
  constructor
  · rfl
  · simp only [getAchievementsState, computeStats, statsStep, countsBump, orZero,
      getUnlockedMap, dedupFields, achTenStore, BADGES, badgeStarter, badgeTen,
      badgeHundred, badgeAccuracy, badgeStreak, badgeMath, evalStep, falsyProp,
      assocLookup, assocSet, jsRound, List.foldl, List.map, List.filter, List.any]
    norm_num

/-- Claim C3 (amended): when a badge's persisted unlock timestamp is a nonzero
number, every `getAchievementsState` call returns a status for that badge
whose `unlockedAt` is the original timestamp, but whose `unlocked` flag is the
current predicate result on the freshly computed stats — so the badge is
reported locked again whenever the stats no longer satisfy the predicate; the
persisted timestamp itself is never altered or removed. -/
theorem badge_report_with_recorded_timestamp (records : List StudyRecord)
    (streakDays now : ℚ) (s : Store) (b : BadgeDef) (t : ℚ)
    (hb : b ∈ BADGES) (ht : t ≠ 0)
    (h : assocLookup (getUnlockedMap s) b.id = some (.num t)) :
    (⟨b.id, (b.check (computeStats records streakDays)).1,
      (b.check (computeStats records streakDays)).2, some (.num t)⟩ : BadgeStatus) ∈
      (getAchievementsState records streakDays now s).1.badges ∧
    assocLookup ((getAchievementsState records streakDays now s).1.unlockedMap) b.id =
      some (.num t) := by
  constructor
  · exact evalFold_status_mem (computeStats records streakDays) now b.id t ht BADGES
      ⟨[], getUnlockedMap s⟩ h b hb rfl
  · exact evalFold_preserves (computeStats records streakDays) now b.id t ht BADGES
      ⟨[], getUnlockedMap s⟩ h

theorem badge_report_with_recorded_timestamp_witness :
    (⟨badgeTen.id, (badgeTen.check (computeStats [] 0)).1,
      (badgeTen.check (computeStats [] 0)).2, some (.num 77)⟩ : BadgeStatus) ∈
      (getAchievementsState [] 0 999 achTenStore).1.badges :=
  (badge_report_with_recorded_timestamp [] 0 999 achTenStore badgeTen 77
    (List.Mem.tail _ (List.Mem.head _)) (by norm_num) rfl).1

end KidsCoding
